import Mathlib

/-!
Shallow embedding of drivers/gpu/drm/i915/gt/uc/intel_guc_hwconfig.c.

The blob is modelled as a list of 32-bit words (every access the C code
performs is at u32 granularity), together with a byte size carried
separately, exactly as the C code carries hwconfig->size next to
hwconfig->ptr.  An out-of-bounds word read is modelled as the value
`none`, so that memory safety of the validator is the statement that it
never returns `none` on a buffer that really holds `size` bytes.

The firmware transport, the vma scratch allocator and kmalloc are
out-of-scope collaborators; they are modelled as an environment record
whose fields give the outcome of each external call.  Every mmio round
trip and every scratch acquire/release is recorded in an event trace.
-/

/-- Linux errno value ENOENT = 2. -/
def ENOENT : Int := 2

/-- Linux errno value ENXIO = 6 (returned by the transport when the
GuC firmware does not implement the requested action). -/
def ENXIO_val : Int := 6

/-- Linux errno value ENOMEM = 12. -/
def ENOMEM : Int := 12

/-- Linux errno value EINVAL = 22. -/
def EINVAL : Int := 22

/-- Byte offset of the `data` field of struct drm_i915_query_hwconfig_blob_item:
a u32 `key` plus a u32 `length`, so 8 bytes.  This is `min_item_size` in
verify_hwconfig_blob. -/
def min_item_size : Nat := 8

/-- The loop of verify_hwconfig_blob (intel_guc_hwconfig.c lines 90-105).
`words` is the buffer content as 32-bit words, `size` is hwconfig->size in
bytes, `offset` is the loop cursor in bytes.  The result is `none` when the
walk would read a word outside the buffer (undefined behaviour in C), and
otherwise `some (ret, off)` where `ret` is the returned int (0 or -EINVAL)
and `off` the value of the cursor when the loop stopped.  All arithmetic is
on u64 in the C code and cannot wrap there (8 + 4 * L < 2^64 for any u32 L),
so plain Nat arithmetic is an exact model. -/
def verifyLoop (words : List Nat) (size : Nat) (offset : Nat) : Option (Int × Nat) :=
  if offset < size then
    if size - offset < min_item_size then some (-EINVAL, offset)
    else
      match words[offset / 4 + 1]? with
      | none => none
      | some L =>
        if min_item_size + 4 * L > size - offset then some (-EINVAL, offset)
        else verifyLoop words size (offset + (min_item_size + 4 * L))
  else some (0, offset)
termination_by size - offset
decreasing_by simp only [min_item_size]; omega

/-- verify_hwconfig_blob (intel_guc_hwconfig.c lines 74-108): reject a size
that is not u32 aligned, then walk the item list.  Returns the int result,
or `none` if the walk performed an out-of-bounds read. -/
def verify_hwconfig_blob (size : Nat) (words : List Nat) : Option Int :=
  if size % 4 ≠ 0 then some (-EINVAL)
  else (verifyLoop words size 0).map Prod.fst

/-- The walk of verify_hwconfig_blob with an explicit iteration budget:
the outer `none` reports that the budget ran out before the loop exited,
the inner value is as in `verifyLoop`.  This is the C loop as a plain
step-bounded iteration, with no termination argument built in. -/
def verifyLoopFuel (fuel : Nat) (words : List Nat) (size offset : Nat) :
    Option (Option (Int × Nat)) :=
  match fuel with
  | 0 => if offset < size then none else some (some (0, offset))
  | Nat.succ n =>
    if offset < size then
      if size - offset < min_item_size then some (some (-EINVAL, offset))
      else
        match words[offset / 4 + 1]? with
        | none => some none
        | some L =>
          if min_item_size + 4 * L > size - offset then some (some (-EINVAL, offset))
          else verifyLoopFuel n words size (offset + (min_item_size + 4 * L))
    else some (some (0, offset))

/-- A KLV item as described by the blob format: a key and the value words.
The `length` field of the wire format is `data.length`. -/
structure BlobItem where
  key : Nat
  data : List Nat
deriving DecidableEq

/-- Wire encoding of one item: key word, length word, then the value words. -/
def itemWords (it : BlobItem) : List Nat :=
  it.key :: it.data.length :: it.data

/-- Wire encoding of a sequence of items, tightly packed with no padding. -/
def blobWords : List BlobItem → List Nat
  | [] => []
  | it :: rest => itemWords it ++ blobWords rest

/-- The struct intel_guc_hwconfig state: a byte size and the kmalloc
buffer (`none` models a NULL ptr, `some ws` a buffer holding words `ws`). -/
structure Hwconfig where
  size : Nat
  ptr : Option (List Nat)
deriving DecidableEq

/-- The state with size 0 and no buffer (the Empty state of the spec,
and the state of the struct before intel_guc_hwconfig_init runs). -/
def emptyHwconfig : Hwconfig := { size := 0, ptr := none }

/-- Events recording the externally visible calls made while init runs. -/
inductive Event where
  /-- One intel_guc_send_mmio round trip with the given ggtt offset and size
  arguments (the probe is `sendEv 0 0`). -/
  | sendEv (ggtt_offset ggtt_size : Nat)
  /-- Successful intel_guc_allocate_and_map_vma (scratch region acquired). -/
  | vmaAlloc
  /-- i915_vma_unpin_and_release (scratch region released). -/
  | vmaRelease
deriving DecidableEq

/-- Outcomes of the external collaborators, fixed for one init run:
the transport result as a function of the mmio arguments, the vma
allocator result, the ggtt offset of the scratch region, whether kmalloc
succeeds, and the words the firmware wrote into the scratch region. -/
structure Env where
  hasTable : Bool
  send_mmio : Nat → Nat → Int
  allocVmaRet : Int
  ggttOffset : Nat
  kmallocOk : Bool
  scratch : List Nat

/-- __guc_action_get_hwconfig (lines 39-59): send the GET_HWCONFIG action,
map -ENXIO to -ENOENT, and turn a 0 result on a 0-size request into
-EINVAL.  Returns the int result and the trace of transport calls. -/
def __guc_action_get_hwconfig (env : Env) (ggtt_offset ggtt_size : Nat) :
    Int × List Event :=
  let ret := env.send_mmio ggtt_offset ggtt_size
  let r :=
    if ret = -ENXIO_val then -ENOENT
    else if ggtt_size = 0 ∧ ret = 0 then -EINVAL
    else ret
  (r, [Event.sendEv ggtt_offset ggtt_size])

/-- guc_hwconfig_discover_size (lines 61-72): probe with offset 0 and size 0;
a negative result is returned unchanged, otherwise the result becomes
hwconfig->size and 0 is returned. -/
def guc_hwconfig_discover_size (env : Env) (hw : Hwconfig) :
    Int × Hwconfig × List Event :=
  let act := __guc_action_get_hwconfig env 0 0
  if act.1 < 0 then (act.1, hw, act.2)
  else (0, { hw with size := act.1.toNat }, act.2)

/-- guc_hwconfig_fill_buffer (lines 110-139): acquire the scratch vma, issue
the fetch, on a non-negative result copy the scratch into hwconfig->ptr and
validate it (an invalid blob turns the result into -EINVAL), then release
the scratch unconditionally. -/
def guc_hwconfig_fill_buffer (env : Env) (hw : Hwconfig) :
    Int × Hwconfig × List Event :=
  if env.allocVmaRet ≠ 0 then (env.allocVmaRet, hw, [])
  else
    let act := __guc_action_get_hwconfig env env.ggttOffset hw.size
    let hw1 : Hwconfig := { hw with ptr := some env.scratch }
    let res : Int × Hwconfig :=
      if 0 ≤ act.1 then
        if verify_hwconfig_blob hw1.size env.scratch ≠ some 0 then (-EINVAL, hw1)
        else (act.1, hw1)
      else (act.1, hw)
    (res.1, res.2, Event.vmaAlloc :: act.2 ++ [Event.vmaRelease])

/-- intel_guc_hwconfig_fini (lines 156-161): kfree the buffer, reset size
and ptr. -/
def intel_guc_hwconfig_fini (hw : Hwconfig) : Hwconfig :=
  { hw with size := 0, ptr := none }

/-- intel_guc_hwconfig_init (lines 169-195): gate on has_table, discover the
size, kmalloc the buffer (contents indeterminate until the fetch, modelled
as zero words), fill it, and on any fill failure run fini before returning
the error. -/
def intel_guc_hwconfig_init (env : Env) (hw : Hwconfig) :
    Int × Hwconfig × List Event :=
  if ¬env.hasTable then (0, hw, [])
  else
    let d := guc_hwconfig_discover_size env hw
    if d.1 ≠ 0 then (d.1, d.2.1, d.2.2)
    else if ¬env.kmallocOk then (-ENOMEM, { d.2.1 with size := 0, ptr := none }, d.2.2)
    else
      let hw2 : Hwconfig := { d.2.1 with ptr := some (List.replicate (d.2.1).size 0) }
      let f := guc_hwconfig_fill_buffer env hw2
      if f.1 < 0 then (f.1, intel_guc_hwconfig_fini f.2.1, d.2.2 ++ f.2.2)
      else (0, f.2.1, d.2.2 ++ f.2.2)

/-! Concrete environments used as witnesses and counterexamples. -/

/-- Environment where the capability gate passes but the transport answers
the probe with -ENXIO (GuC does not implement the action). -/
def envNotPresent : Env :=
  { hasTable := true, send_mmio := fun _ _ => -ENXIO_val, allocVmaRet := 0,
    ggttOffset := 4096, kmallocOk := true, scratch := [] }

/-- Environment where the probe succeeds at the transport level but
reports a required size of 0. -/
def envSizeZero : Env :=
  { hasTable := true, send_mmio := fun _ _ => 0, allocVmaRet := 0,
    ggttOffset := 4096, kmallocOk := true, scratch := [] }

/-- Environment where the transport fails every call with -5 (-EIO). -/
def envEIO : Env :=
  { hasTable := true, send_mmio := fun _ _ => -5, allocVmaRet := 0,
    ggttOffset := 4096, kmallocOk := true, scratch := [] }

/-- Environment with the capability gate false. -/
def envNoTable : Env :=
  { hasTable := false, send_mmio := fun _ _ => 12, allocVmaRet := 0,
    ggttOffset := 4096, kmallocOk := true, scratch := [] }

example : verify_hwconfig_blob 12 [0, 1, 8] = some 0 := by
  simp [verify_hwconfig_blob, verifyLoop, min_item_size, EINVAL]
example : verify_hwconfig_blob 32 [0, 1, 8, 1, 3, 0xFFFFFFFF, 0xFFFFFFFF, 0xFF000000] = some 0 := by
  simp [verify_hwconfig_blob, verifyLoop, min_item_size, EINVAL]
example : verify_hwconfig_blob 32 [0, 1, 8, 1, 5, 0xFFFFFFFF, 0xFFFFFFFF, 0xFF000000] =
    some (-EINVAL) := by simp [verify_hwconfig_blob, verifyLoop, min_item_size, EINVAL]
example : verify_hwconfig_blob 10 [0, 1, 8] = some (-EINVAL) := by
  simp [verify_hwconfig_blob, verifyLoop, min_item_size, EINVAL]
example : verify_hwconfig_blob 8 [7] = none := by
  simp [verify_hwconfig_blob, verifyLoop, min_item_size, EINVAL]

/-- C3, counterexample: with the gate passing and the probe answered by
-ENXIO, intel_guc_hwconfig_init does not return success: the -ENOENT that
__guc_action_get_hwconfig produces is propagated out of init by the
`if (ret) return ret` after guc_hwconfig_discover_size, so init fails
rather than succeeding as the claim states. -/
theorem init_not_present_not_success :
    (intel_guc_hwconfig_init envNotPresent emptyHwconfig).1 ≠ 0 := by
  simp [intel_guc_hwconfig_init, guc_hwconfig_discover_size,
    __guc_action_get_hwconfig, envNotPresent, ENXIO_val, ENOENT]

/-- C3, amended: if the capability gate passes and the probe call reports
that the action is not present (transport result -ENXIO), init returns the
NotSupported error -ENOENT (a failure, not success) and leaves the table
exactly as it was, hence still empty when starting from the empty state;
only the single probe exchange occurs. -/
theorem init_not_present_enoent (env : Env) (hw : Hwconfig)
    (hgate : env.hasTable = true) (hprobe : env.send_mmio 0 0 = -ENXIO_val) :
    intel_guc_hwconfig_init env hw = (-ENOENT, hw, [Event.sendEv 0 0]) := by
  simp [intel_guc_hwconfig_init, guc_hwconfig_discover_size,
    __guc_action_get_hwconfig, hgate, hprobe, ENXIO_val, ENOENT]

/-- C3, witness for the amended theorem at a concrete environment. -/
theorem init_not_present_enoent_witness :
    intel_guc_hwconfig_init envNotPresent emptyHwconfig
      = (-ENOENT, emptyHwconfig, [Event.sendEv 0 0]) :=
  init_not_present_enoent envNotPresent emptyHwconfig rfl rfl

/-- C4: if the probe call succeeds at the transport level (result 0 on the
0-size request), __guc_action_get_hwconfig turns it into -EINVAL, size
discovery returns -EINVAL, and init fails with -EINVAL rather than
succeeding. -/
theorem init_size_zero_invalid (env : Env) (hw : Hwconfig)
    (hgate : env.hasTable = true) (hprobe : env.send_mmio 0 0 = 0) :
    (__guc_action_get_hwconfig env 0 0).1 = -EINVAL ∧
    guc_hwconfig_discover_size env hw = (-EINVAL, hw, [Event.sendEv 0 0]) ∧
    (intel_guc_hwconfig_init env hw).1 = -EINVAL := by
  refine ⟨?_, ?_, ?_⟩ <;>
    simp [intel_guc_hwconfig_init, guc_hwconfig_discover_size,
      __guc_action_get_hwconfig, hgate, hprobe, ENXIO_val, ENOENT, EINVAL]

/-- C4, witness at a concrete environment. -/
theorem init_size_zero_invalid_witness :
    (__guc_action_get_hwconfig envSizeZero 0 0).1 = -EINVAL ∧
    guc_hwconfig_discover_size envSizeZero emptyHwconfig
      = (-EINVAL, emptyHwconfig, [Event.sendEv 0 0]) ∧
    (intel_guc_hwconfig_init envSizeZero emptyHwconfig).1 = -EINVAL :=
  init_size_zero_invalid envSizeZero emptyHwconfig rfl rfl

/-- C6: if the capability gate is false, init returns 0, the state is
unchanged (so still empty when starting from empty), and the event trace is
empty: no probe and no fetch exchange occurs. -/
theorem init_no_table (env : Env) (h : env.hasTable = false) :
    intel_guc_hwconfig_init env emptyHwconfig = (0, emptyHwconfig, []) := by
  simp [intel_guc_hwconfig_init, h]

/-- C6, witness at a concrete environment. -/
theorem init_no_table_witness :
    intel_guc_hwconfig_init envNoTable emptyHwconfig = (0, emptyHwconfig, []) :=
  init_no_table envNoTable rfl

/-- C7: intel_guc_hwconfig_fini maps every state to the empty state (size 0,
no buffer), never fails (it is a total function), and is idempotent:
running it twice gives the same state as running it once. -/
theorem fini_total_idempotent (hw : Hwconfig) :
    intel_guc_hwconfig_fini hw = emptyHwconfig ∧
    intel_guc_hwconfig_fini (intel_guc_hwconfig_fini hw)
      = intel_guc_hwconfig_fini hw := by
  simp [intel_guc_hwconfig_fini, emptyHwconfig]

/-- C7, witness at a concrete state. -/
theorem fini_total_idempotent_witness :
    intel_guc_hwconfig_fini { size := 12, ptr := some [0, 1, 8] } = emptyHwconfig ∧
    intel_guc_hwconfig_fini (intel_guc_hwconfig_fini { size := 12, ptr := some [0, 1, 8] })
      = intel_guc_hwconfig_fini { size := 12, ptr := some [0, 1, 8] } :=
  fini_total_idempotent { size := 12, ptr := some [0, 1, 8] }

/-- C8: a negative transport status r other than -ENXIO is passed through
unchanged by __guc_action_get_hwconfig and by size discovery, and init
fails with exactly that status. -/
theorem discover_passthrough (env : Env) (hw : Hwconfig) (r : Int)
    (hgate : env.hasTable = true) (hprobe : env.send_mmio 0 0 = r)
    (hneg : r < 0) (hne : r ≠ -ENXIO_val) :
    (__guc_action_get_hwconfig env 0 0).1 = r ∧
    guc_hwconfig_discover_size env hw = (r, hw, [Event.sendEv 0 0]) ∧
    (intel_guc_hwconfig_init env hw).1 = r := by
  have hr0 : ¬(r = 0) := by omega
  refine ⟨?_, ?_, ?_⟩ <;>
    simp [intel_guc_hwconfig_init, guc_hwconfig_discover_size,
      __guc_action_get_hwconfig, hgate, hprobe, hne, hneg, hr0]

/-- C8, witness at the concrete status -5. -/
theorem discover_passthrough_witness :
    (__guc_action_get_hwconfig envEIO 0 0).1 = -5 ∧
    guc_hwconfig_discover_size envEIO emptyHwconfig
      = (-5, emptyHwconfig, [Event.sendEv 0 0]) ∧
    (intel_guc_hwconfig_init envEIO emptyHwconfig).1 = -5 :=
  discover_passthrough envEIO emptyHwconfig (-5) rfl rfl
    (by norm_num) (by norm_num [ENXIO_val])

/-- C9: whenever the scratch vma is acquired successfully, the trace of
guc_hwconfig_fill_buffer contains the release event exactly once, and it is
the last event before the operation returns; this holds on every path:
fetch failure, validation rejection, and success alike. -/
theorem fill_buffer_releases_once (env : Env) (hw : Hwconfig)
    (h : env.allocVmaRet = 0) :
    (guc_hwconfig_fill_buffer env hw).2.2.count Event.vmaRelease = 1 ∧
    (guc_hwconfig_fill_buffer env hw).2.2.getLast? = some Event.vmaRelease := by
  simp [guc_hwconfig_fill_buffer, __guc_action_get_hwconfig, h, List.count_cons]

/-- C9, witness at a concrete environment (one where the fetch fails, so
the release really is exercised on a failure path). -/
theorem fill_buffer_releases_once_witness :
    (guc_hwconfig_fill_buffer envEIO { size := 12, ptr := none }).2.2.count
        Event.vmaRelease = 1 ∧
    (guc_hwconfig_fill_buffer envEIO { size := 12, ptr := none }).2.2.getLast?
      = some Event.vmaRelease :=
  fill_buffer_releases_once envEIO { size := 12, ptr := none } rfl

/-! Memory safety of the validator walk. -/

/-- Helper for C1: starting from a word-aligned cursor, the walk of
verify_hwconfig_blob never reads a word outside a buffer that holds at
least `size` bytes.  The fuel argument bounds the remaining byte count and
drives the induction. -/
theorem verifyLoop_ne_none (words : List Nat) (size : Nat) :
    ∀ fuel offset, size - offset ≤ fuel → offset % 4 = 0 →
      size ≤ 4 * words.length → verifyLoop words size offset ≠ none := by
  intro fuel
  induction fuel with
  | zero =>
    intro offset hf hal hsz
    have hge : ¬offset < size := by omega
    rw [verifyLoop]
    simp [hge]
  | succ n ih =>
    intro offset hf hal hsz
    rw [verifyLoop]
    by_cases hlt : offset < size
    · simp only [hlt, if_true]
      by_cases hrem : size - offset < min_item_size
      · simp [hrem]
      · simp only [hrem, if_false]
        have hrem8 : min_item_size ≤ size - offset := by omega
        have hidx : offset / 4 + 1 < words.length := by
          simp only [min_item_size] at hrem8
          omega
        rw [List.getElem?_eq_getElem hidx]
        by_cases hbig : min_item_size + 4 * words[offset / 4 + 1] > size - offset
        · simp [hbig]
        · simp only [hbig, if_false]
          apply ih
          · simp only [min_item_size] at hf ⊢
            omega
          · simp only [min_item_size]
            omega
          · exact hsz
    · simp [hlt]

/-- C1: for every byte size and every buffer that really holds at least
`size` bytes (`size ≤ 4 * words.length`), verify_hwconfig_blob performs no
read outside the buffer, whatever values the firmware put in the length
fields: the result is never the out-of-bounds marker `none`.  The length
field of each record is bounds checked against the remaining bytes before
the cursor ever moves past it. -/
theorem verify_no_oob (size : Nat) (words : List Nat)
    (hsz : size ≤ 4 * words.length) :
    verify_hwconfig_blob size words ≠ none := by
  unfold verify_hwconfig_blob
  by_cases h4 : size % 4 ≠ 0
  · simp [h4]
  · simp only [h4, if_false, ne_eq, Option.map_eq_none']
    exact verifyLoop_ne_none words size size 0 (by omega) (by omega) hsz

/-- C1, witness at the 12-byte single-record buffer. -/
theorem verify_no_oob_witness :
    12 ≤ 4 * ([0, 1, 8] : List Nat).length ∧
    verify_hwconfig_blob 12 [0, 1, 8] ≠ none :=
  ⟨by simp, verify_no_oob 12 [0, 1, 8] (by simp)⟩

/-! Termination of the validator loop. -/

/-- C10: the validator loop terminates on every input: a budget of
`size - offset` iterations is always enough, because every iteration that
does not exit advances the cursor by item_size = 8 + 4*L bytes, which the
bounds checks force to lie between the 8-byte header size and the
remaining byte count, so the remaining count strictly decreases.  Hence
the step-bounded loop never runs out of budget and computes exactly the
total function `verifyLoop`. -/
theorem verifyLoopFuel_terminates (words : List Nat) :
    ∀ fuel size offset, size - offset ≤ fuel →
      verifyLoopFuel fuel words size offset = some (verifyLoop words size offset) := by
  intro fuel
  induction fuel with
  | zero =>
    intro size offset hf
    have hge : ¬offset < size := by omega
    rw [verifyLoop]
    simp [verifyLoopFuel, hge]
  | succ n ih =>
    intro size offset hf
    rw [verifyLoop, verifyLoopFuel]
    by_cases hlt : offset < size
    · simp only [hlt, if_true]
      by_cases hrem : size - offset < min_item_size
      · simp [hrem]
      · simp only [hrem, if_false]
        cases hL : words[offset / 4 + 1]? with
        | none => rfl
        | some L =>
          by_cases hbig : min_item_size + 4 * L > size - offset
          · simp [hbig]
          · simp only [hbig, if_false]
            apply ih
            simp only [min_item_size] at hf hrem hbig ⊢
            omega
    · simp [hlt]

/-- C10, witness: the 32-byte two-record blob is fully walked within a
32-iteration budget. -/
theorem verifyLoopFuel_terminates_witness :
    verifyLoopFuel 32 [0, 1, 8, 1, 3, 0xFFFFFFFF, 0xFFFFFFFF, 0xFF000000] 32 0
      = some (verifyLoop [0, 1, 8, 1, 3, 0xFFFFFFFF, 0xFFFFFFFF, 0xFF000000] 32 0) :=
  verifyLoopFuel_terminates [0, 1, 8, 1, 3, 0xFFFFFFFF, 0xFFFFFFFF, 0xFF000000] 32 32 0
    (by omega)

/-! Rollback to the empty state on init failure. -/

/-- Helper: a failing guc_hwconfig_discover_size leaves the state unchanged. -/
theorem discover_fail_state (env : Env) (hw : Hwconfig)
    (h : (guc_hwconfig_discover_size env hw).1 ≠ 0) :
    (guc_hwconfig_discover_size env hw).2.1 = hw := by
  by_cases hc : (__guc_action_get_hwconfig env 0 0).1 < 0
  · simp [guc_hwconfig_discover_size, hc]
  · simp [guc_hwconfig_discover_size, hc] at h

/-- C5: starting from the empty state, every failing outcome of
intel_guc_hwconfig_init (discovery failure, allocation failure, fetch
failure or validation rejection) leaves the state empty again: size 0 and
no buffer held, any partially allocated buffer having been freed. -/
theorem init_failure_resets_empty (env : Env)
    (h : (intel_guc_hwconfig_init env emptyHwconfig).1 ≠ 0) :
    (intel_guc_hwconfig_init env emptyHwconfig).2.1 = emptyHwconfig := by
  revert h
  simp only [intel_guc_hwconfig_init]
  split
  · simp
  · split
    · intro _
      exact discover_fail_state env emptyHwconfig (by assumption)
    · split
      · intro _
        simp [emptyHwconfig]
      · split
        · intro _
          simp [intel_guc_hwconfig_fini, emptyHwconfig]
        · simp

/-- C5, witness at a concrete failing environment (transport failure -5). -/
theorem init_failure_resets_empty_witness :
    (intel_guc_hwconfig_init envEIO emptyHwconfig).1 ≠ 0 ∧
    (intel_guc_hwconfig_init envEIO emptyHwconfig).2.1 = emptyHwconfig :=
  ⟨by simp [intel_guc_hwconfig_init, guc_hwconfig_discover_size,
      __guc_action_get_hwconfig, envEIO, ENXIO_val, ENOENT],
    init_failure_resets_empty envEIO
      (by simp [intel_guc_hwconfig_init, guc_hwconfig_discover_size,
        __guc_action_get_hwconfig, envEIO, ENXIO_val, ENOENT])⟩

/-! Functional correctness of the validator: acceptance is exactly the
tightly packed record decomposition of the buffer. -/

/-- The wire encoding of an item list never consists of exactly one word:
zero items give zero words, and any item contributes at least two. -/
theorem blobWords_length_ne_one (items : List BlobItem) :
    (blobWords items).length ≠ 1 := by
  cases items with
  | nil => simp [blobWords]
  | cons it rest => simp [blobWords, itemWords]

/-- Stepping over one well-formed item: when the length word at position
w + 1 fits in the remaining words, the suffix from w decomposes into
records exactly when the suffix beyond the item does. -/
theorem drop_step (words : List Nat) (w L : Nat)
    (hL : words[w + 1]? = some L) (hroom : w + 2 + L ≤ words.length) :
    (∃ items, words.drop (w + 2 + L) = blobWords items) ↔
      ∃ items, words.drop w = blobWords items := by
  obtain ⟨hw1, hget⟩ := List.getElem?_eq_some_iff.mp hL
  have hw0 : w < words.length := by omega
  have hdrop : words.drop w = words[w] :: words[w + 1] :: words.drop (w + 2) := by
    rw [List.drop_eq_getElem_cons hw0, List.drop_eq_getElem_cons hw1]
  have hsplit : (words.drop (w + 2)).take L ++ words.drop (w + 2 + L)
      = words.drop (w + 2) := by
    rw [← List.drop_drop L (w + 2) words, List.take_append_drop]
  constructor
  · rintro ⟨items, hit⟩
    refine ⟨⟨words[w], (words.drop (w + 2)).take L⟩ :: items, ?_⟩
    have hlen : ((words.drop (w + 2)).take L).length = L := by
      rw [List.length_take, List.length_drop]
      omega
    rw [hdrop, hget, blobWords]
    simp only [itemWords, hlen, List.cons_append]
    rw [← hit, hsplit]
  · rintro ⟨items, hit⟩
    cases items with
    | nil =>
      exfalso
      rw [hdrop, blobWords] at hit
      cases hit
    | cons it rest =>
      rw [hdrop, blobWords] at hit
      simp only [itemWords, List.cons_append] at hit
      injection hit with h1 hit
      injection hit with h2 hit
      refine ⟨rest, ?_⟩
      rw [← List.drop_drop L (w + 2) words, hit]
      apply List.drop_left'
      rw [← h2, hget]
  
/-- If the length word at position w + 1 declares more value words than the
buffer still holds, then no record decomposition of the suffix from w
exists: the item that would have to start at w cannot fit. -/
theorem drop_no_items (words : List Nat) (w L : Nat)
    (hL : words[w + 1]? = some L) (hbig : words.length < w + 2 + L) :
    ¬∃ items, words.drop w = blobWords items := by
  rintro ⟨items, hit⟩
  obtain ⟨hw1, hget⟩ := List.getElem?_eq_some_iff.mp hL
  have hw0 : w < words.length := by omega
  have hdrop : words.drop w = words[w] :: words[w + 1] :: words.drop (w + 2) := by
    rw [List.drop_eq_getElem_cons hw0, List.drop_eq_getElem_cons hw1]
  cases items with
  | nil =>
    rw [hdrop, blobWords] at hit
    cases hit
  | cons it rest =>
    rw [hdrop, blobWords] at hit
    simp only [itemWords, List.cons_append] at hit
    injection hit with h1 hit
    injection hit with h2 hit
    have hdl : it.data.length = L := by rw [← h2, hget]
    have hlen := congrArg List.length hit
    rw [List.length_drop, List.length_append, hdl] at hlen
    omega

/-- Core equivalence for C2: from the word-aligned cursor position 4 * w,
the walk of verify_hwconfig_blob succeeds with the cursor at the end of
the buffer exactly when the suffix of the buffer from word w decomposes
into well-formed records. -/
theorem verifyLoop_iff_blob (words : List Nat) (size : Nat)
    (hsz : 4 * words.length = size) :
    ∀ fuel w, words.length - w ≤ fuel → w ≤ words.length →
      (verifyLoop words size (4 * w) = some (0, size) ↔
        ∃ items, words.drop w = blobWords items) := by
  intro fuel
  induction fuel with
  | zero =>
    intro w hf hw
    have hww : w = words.length := by omega
    subst hww
    constructor
    · intro _
      exact ⟨[], by simp [blobWords]⟩
    · intro _
      rw [verifyLoop]
      have hnlt : ¬4 * words.length < size := by omega
      simp [hnlt, hsz]
  | succ n ih =>
    intro w hf hw
    by_cases hww : w = words.length
    · subst hww
      constructor
      · intro _
        exact ⟨[], by simp [blobWords]⟩
      · intro _
        rw [verifyLoop]
        have hnlt : ¬4 * words.length < size := by omega
        simp [hnlt, hsz]
    · have hwlt : w < words.length := by omega
      have hofflt : 4 * w < size := by omega
      have hdiv : 4 * w / 4 = w := by omega
      rw [verifyLoop]
      simp only [hofflt, if_true, hdiv]
      by_cases hrem : size - 4 * w < min_item_size
      · have hone : words.length = w + 1 := by
          simp only [min_item_size] at hrem
          omega
        rw [if_pos hrem]
        constructor
        · intro hcon
          exfalso
          simp [EINVAL] at hcon
        · rintro ⟨items, hit⟩
          exfalso
          have hl := congrArg List.length hit
          rw [List.length_drop, hone] at hl
          exact blobWords_length_ne_one items (by omega)
      · rw [if_neg hrem]
        have hrem8 : min_item_size ≤ size - 4 * w := by omega
        have hidx : w + 1 < words.length := by
          simp only [min_item_size] at hrem8
          omega
        rw [List.getElem?_eq_getElem hidx]
        by_cases hbig : min_item_size + 4 * words[w + 1] > size - 4 * w
        · simp only [hbig, if_true]
          constructor
          · intro hcon
            exfalso
            simp [EINVAL] at hcon
          · rintro hitems
            exfalso
            refine drop_no_items words w words[w + 1]
              (List.getElem?_eq_getElem hidx) ?_ hitems
            simp only [min_item_size] at hbig
            omega
        · simp only [hbig, if_false]
          have harith : 4 * w + (min_item_size + 4 * words[w + 1])
              = 4 * (w + 2 + words[w + 1]) := by
            simp only [min_item_size]
            ring
          have hroom : w + 2 + words[w + 1] ≤ words.length := by
            simp only [min_item_size] at hbig
            omega
          rw [harith, ih (w + 2 + words[w + 1]) (by omega) hroom]
          exact drop_step words w words[w + 1] (List.getElem?_eq_getElem hidx) hroom

/-- Helper: when the walk starts at a cursor within bounds and returns
success, the final cursor is exactly the byte size: the records consumed
the buffer with no bytes left over. -/
theorem verifyLoop_success_offset (words : List Nat) :
    ∀ fuel size offset off, size - offset ≤ fuel → offset ≤ size →
      verifyLoop words size offset = some (0, off) → off = size := by
  intro fuel
  induction fuel with
  | zero =>
    intro size offset off hf hle hcon
    have hge : ¬offset < size := by omega
    rw [verifyLoop] at hcon
    simp [hge] at hcon
    omega
  | succ n ih =>
    intro size offset off hf hle hcon
    rw [verifyLoop] at hcon
    by_cases hlt : offset < size
    · simp only [hlt, if_true] at hcon
      by_cases hrem : size - offset < min_item_size
      · simp [hrem, EINVAL] at hcon
      · simp only [hrem, if_false] at hcon
        cases hL : words[offset / 4 + 1]? with
        | none =>
          rw [hL] at hcon
          simp at hcon
        | some L =>
          rw [hL] at hcon
          by_cases hbig : min_item_size + 4 * L > size - offset
          · simp [hbig, EINVAL] at hcon
          · simp only [hbig, if_false] at hcon
            refine ih size (offset + (min_item_size + 4 * L)) off ?_ ?_ hcon
            · simp only [min_item_size] at hf ⊢
              omega
            · simp only [min_item_size] at hbig ⊢
              omega
    · simp [hlt] at hcon
      omega

/-- Helper: on a u32-aligned size, verify_hwconfig_blob returns 0 exactly
when the walk succeeds with the cursor ending exactly at offset `size`. -/
theorem verify_some_zero_iff_loop (size : Nat) (words : List Nat)
    (h4 : size % 4 = 0) :
    verify_hwconfig_blob size words = some 0 ↔
      verifyLoop words size 0 = some (0, size) := by
  have hmap : verify_hwconfig_blob size words
      = (verifyLoop words size 0).map Prod.fst := by
    simp [verify_hwconfig_blob, h4]
  rw [hmap]
  constructor
  · intro hm
    cases hv : verifyLoop words size 0 with
    | none => simp [hv] at hm
    | some p =>
      obtain ⟨r, off⟩ := p
      rw [hv] at hm
      simp at hm
      subst hm
      have hoff := verifyLoop_success_offset words size size 0 off
        (by omega) (by omega) hv
      rw [hoff]
  · intro hv
    rw [hv]
    rfl

/-- C2: the validator accepts a buffer exactly when the size is a multiple
of 4 and the buffer is a tightly packed sequence of well-formed records
whose sizes sum exactly to the buffer size; an accepted walk ends with the
cursor exactly at offset `size`; and a size that is not a multiple of 4
is rejected with -EINVAL. -/
theorem verify_accepts_iff :
    (∀ size words, 4 * words.length = size →
        (verify_hwconfig_blob size words = some 0 ↔
          size % 4 = 0 ∧ ∃ items, words = blobWords items)) ∧
    (∀ size words, 4 * words.length = size →
        verify_hwconfig_blob size words = some 0 →
        verifyLoop words size 0 = some (0, size)) ∧
    (∀ size words, size % 4 ≠ 0 →
        verify_hwconfig_blob size words = some (-EINVAL)) := by
  refine ⟨?_, ?_, ?_⟩
  · intro size words hsz
    have h4 : size % 4 = 0 := by omega
    rw [verify_some_zero_iff_loop size words h4]
    have hiff := verifyLoop_iff_blob words size hsz words.length 0
      (by omega) (by omega)
    simpa [h4] using hiff
  · intro size words hsz hv
    have h4 : size % 4 = 0 := by omega
    exact (verify_some_zero_iff_loop size words h4).mp hv
  · intro size words h4
    simp [verify_hwconfig_blob, h4]

/-- C2, witness: the 32-byte two-record blob from the spec is accepted and
its walk ends at offset 32, and the 10-byte unaligned size is rejected. -/
theorem verify_accepts_iff_witness :
    4 * ([0, 1, 8, 1, 3, 0xFFFFFFFF, 0xFFFFFFFF, 0xFF000000] : List Nat).length = 32 ∧
    (verify_hwconfig_blob 32 [0, 1, 8, 1, 3, 0xFFFFFFFF, 0xFFFFFFFF, 0xFF000000] = some 0 ↔
      32 % 4 = 0 ∧ ∃ items,
        ([0, 1, 8, 1, 3, 0xFFFFFFFF, 0xFFFFFFFF, 0xFF000000] : List Nat) = blobWords items) ∧
    verifyLoop [0, 1, 8, 1, 3, 0xFFFFFFFF, 0xFFFFFFFF, 0xFF000000] 32 0 = some (0, 32) ∧
    verify_hwconfig_blob 10 [0, 1, 8] = some (-EINVAL) :=
  ⟨by simp,
    verify_accepts_iff.1 32 _ (by simp),
    verify_accepts_iff.2.1 32 _ (by simp)
      (by simp [verify_hwconfig_blob, verifyLoop, min_item_size, EINVAL]),
    verify_accepts_iff.2.2 10 [0, 1, 8] (by norm_num)⟩
